import Mathlib

/- Verification development for the TestPiper text-to-speech pipeline.

   The embedding covers the two components the specification describes:
   the synthesis normalizer (synthesize_bytes in src/main.py and
   src/main_api.py) and the effects processors (process_audio in
   src/main.py, process_audio_effects in src/main_api.py).

   Byte sequences are modelled as List Nat with every element below 256.
   The canonical container is the 44-byte PCM WAV header written by the
   Python wave module (RIFF / fmt / data chunks), followed by the raw
   interleaved sample bytes.  Size fields wrap modulo 2^32, matching the
   4-byte little-endian encoding; inputs considered by the theorems stay
   far below that bound.

   Sample values are signed little-endian integers of the declared sample
   width, as the pydub AudioSegment sample accessors interpret them. -/

set_option maxHeartbeats 1000000

namespace TestPiper

/-- Floor of a rational, in kernel-reducible form (the numerator divided
by the positive denominator with Euclidean division is the floor). -/
def ratFloor (q : ℚ) : ℤ := q.num / q.den

theorem ratFloor_eq_floor (q : ℚ) : ratFloor q = ⌊q⌋ := Rat.floor_def.symm

/-- Python round() on an exact rational: round half to even, as a model of
the float rounding applied inside the pydub filter loops. -/
def pyRound (q : ℚ) : ℤ :=
  if q - ratFloor q < 1/2 then ratFloor q
  else if 1/2 < q - ratFloor q then ratFloor q + 1
  else if 2 ∣ ratFloor q then ratFloor q else ratFloor q + 1

/-- Saturation of a sample to the representable range of a given sample
width, as audioop fbound does: values are clamped to
[-(2^(8w-1)), 2^(8w-1) - 1]. -/
def clampW (w : ℕ) (v : ℤ) : ℤ :=
  max (-(2 ^ (8 * w - 1))) (min v (2 ^ (8 * w - 1) - 1))

/-- Little-endian value of a byte list. -/
def leDecode : List ℕ → ℕ
  | [] => 0
  | b :: bs => b + 256 * leDecode bs

/-- Little-endian byte list of a value, w bytes wide. -/
def leEncode : ℕ → ℕ → List ℕ
  | 0, _ => []
  | w + 1, v => v % 256 :: leEncode w (v / 256)

/-- Interpret an unsigned w-byte value as a two-complement signed sample. -/
def toSigned (w : ℕ) (v : ℕ) : ℤ :=
  if 2 * v < 2 ^ (8 * w) then (v : ℤ) else (v : ℤ) - 2 ^ (8 * w)

/-- Unsigned w-byte value of a signed sample. -/
def fromSigned (w : ℕ) (s : ℤ) : ℕ := (s % 2 ^ (8 * w)).toNat

/-- Split a list into chunks of c elements (a trailing shorter chunk is
kept).  The first argument is fuel, instantiated with the list length. -/
def toFramesF {α : Type} : ℕ → ℕ → List α → List (List α)
  | 0, _, _ => []
  | _ + 1, _, [] => []
  | f + 1, c, a :: d => ((a :: d).take c) :: toFramesF f c ((a :: d).drop c)

/-- Decode raw PCM bytes into the list of signed samples of width w. -/
def bytesToSamples (w : ℕ) (body : List ℕ) : List ℤ :=
  (toFramesF body.length w body).map (fun fr => toSigned w (leDecode fr))

/-- Encode signed samples of width w back into raw PCM bytes. -/
def samplesToBytes (w : ℕ) (samples : List ℤ) : List ℕ :=
  (samples.map (fun s => leEncode w (fromSigned w s))).flatten

/-- Little-endian 16-bit read at byte offset i. -/
def u16 (b : List ℕ) (i : ℕ) : ℕ := b.getD i 0 + 256 * b.getD (i + 1) 0

/-- Little-endian 32-bit read at byte offset i. -/
def u32 (b : List ℕ) (i : ℕ) : ℕ := u16 b i + 65536 * u16 b (i + 2)

/-- The 44-byte canonical PCM WAV header the Python wave module writes:
RIFF size, WAVE, fmt chunk of length 16 with format tag 1, channel count,
sample rate, byte rate, block align, bits per sample, and the data chunk
length.  Multi-byte fields are little-endian and wrap modulo 2^32. -/
def wavHeader (r c w dlen : ℕ) : List ℕ :=
  [82, 73, 70, 70,
   (36 + dlen) % 256, (36 + dlen) / 256 % 256,
   (36 + dlen) / 65536 % 256, (36 + dlen) / 16777216 % 256,
   87, 65, 86, 69,
   102, 109, 116, 32,
   16, 0, 0, 0,
   1, 0,
   c % 256, c / 256 % 256,
   r % 256, r / 256 % 256, r / 65536 % 256, r / 16777216 % 256,
   r * c * w % 256, r * c * w / 256 % 256,
   r * c * w / 65536 % 256, r * c * w / 16777216 % 256,
   c * w % 256, c * w / 256 % 256,
   8 * w % 256, 8 * w / 256 % 256,
   100, 97, 116, 97,
   dlen % 256, dlen / 256 % 256, dlen / 65536 % 256, dlen / 16777216 % 256]

/-- A canonical container around a raw byte body, as produced by
wave.open(.., "wb") plus writeframes(body). -/
def wavEncodeBytes (r c w : ℕ) (body : List ℕ) : List ℕ :=
  wavHeader r c w body.length ++ body

/-- Decoded audio: the WaveformBuffer of the specification and the state
pydub AudioSegment keeps (frame rate, channel count, sample width, and the
sample sequence). -/
structure AudioSeg where
  rate : ℕ
  channels : ℕ
  width : ℕ
  samples : List ℤ
  deriving DecidableEq

/-- Parse a canonical container: extract channel count, sample rate and
sample width from their fixed header offsets, and accept exactly the byte
sequences the canonical encoder produces (positive channel count and
width, a data chunk of whole frames, bytes in range).  Models the pydub
WAV reader restricted to canonical input; anything else is the
DecodeError case. -/
def wavDecode (b : List ℕ) : Option AudioSeg :=
  let c := u16 b 22
  let r := u32 b 24
  let bits := u16 b 34
  let w := bits / 8
  let body := b.drop 44
  if 0 < c ∧ 0 < w ∧ bits = 8 * w ∧ c * w ∣ body.length ∧ (∀ x ∈ body, x < 256) ∧
      b = wavHeader r c w body.length ++ body
  then some ⟨r, c, w, bytesToSamples w body⟩
  else none

/-- Re-encode a decoded waveform, as AudioSegment.export(format="wav")
does through the wave module. -/
def wavEncodeSeg (s : AudioSeg) : List ℕ :=
  wavEncodeBytes s.rate s.channels s.width (samplesToBytes s.width s.samples)

/-- Model parameters for the irrational constants the pipeline computes in
floating point: pi (used by the pydub RC filter coefficients), the pydub
db_to_float conversion 10^(db/20), and the pitch factor 2^(semitones/12).
They are abstract rational-valued functions constrained by properties the
real float computation satisfies; every theorem below holds for every
model, and concrete witnesses instantiate ratPrims. -/
structure GainModel where
  pi : ℚ
  dbToFloat : ℚ → ℚ
  pitchFactor : ℚ → ℚ
  dbToFloat_pos : ∀ x : ℚ, 0 < dbToFloat x
  headroom_lt_one : dbToFloat (-(1/10)) < 1
  headroom_gt : 49/50 < dbToFloat (-(1/10))
  pi_pos : 0 < pi

/-- A concrete executable GainModel instance used by the witness and
counterexample theorems. -/
def ratPrims : GainModel where
  pi := 314159/100000
  dbToFloat := fun x => if x ≤ 0 then 1/(1 - x/20) else 1 + x/20
  pitchFactor := fun x => if x ≤ 0 then 1/(1 - x/12) else 1 + x/12
  dbToFloat_pos := by
    intro x
    dsimp only
    split_ifs with h
    · have h1 : (0 : ℚ) < 1 - x/20 := by linarith
      positivity
    · push_neg at h
      linarith
  headroom_lt_one := by norm_num
  headroom_gt := by norm_num
  pi_pos := by norm_num

/-- Coefficient of the pydub low_pass_filter RC loop:
alpha = dt/(RC + dt) with RC = 1/(2 pi cutoff) and dt = 1/frame_rate,
which equals 2 pi cutoff / (2 pi cutoff + rate). -/
def alphaLP (G : GainModel) (cutoff rate : ℕ) : ℚ :=
  (2 * G.pi * cutoff) / (2 * G.pi * cutoff + rate)

/-- Coefficient of the pydub high_pass_filter RC loop:
alpha = RC/(RC + dt), which equals rate / (rate + 2 pi cutoff). -/
def alphaHP (G : GainModel) (cutoff rate : ℕ) : ℚ :=
  (rate : ℚ) / ((rate : ℚ) + 2 * G.pi * cutoff)

/-- The low-pass filter loop over the frames after the first: the
per-channel float state is last + alpha*(x - last), and the emitted sample
is that state rounded. -/
def lpGo (alpha : ℚ) : List ℚ → List (List ℤ) → List (List ℤ)
  | _, [] => []
  | st, fr :: frs =>
    let ns := List.zipWith (fun lv x => lv + alpha * ((x : ℚ) - lv)) st fr
    ns.map pyRound :: lpGo alpha ns frs

/-- pydub low_pass_filter on interleaved samples: the first frame is
copied unchanged (it initialises the filter state), later full frames go
through the RC loop.  A trailing partial frame (which cannot arise for
whole-frame data) is left unchanged. -/
def lpFilterData (alpha : ℚ) (ch : ℕ) (data : List ℤ) : List ℤ :=
  let fc := data.length / ch
  let full := data.take (fc * ch)
  let rem := data.drop (fc * ch)
  match toFramesF full.length ch full with
  | [] => data
  | f0 :: frs => (f0 :: lpGo alpha (f0.map (fun x => (x : ℚ))) frs).flatten ++ rem

/-- Python int() on an exact rational: truncation toward zero, as applied
to the clamped float state in the pydub high-pass filter loop. -/
def ratTrunc (q : ℚ) : ℤ := Int.div q.num q.den

/-- The high-pass filter loop over the frames after the first: the state
update is alpha * (last + x - xPrev) with xPrev the same channel of the
previous original frame; the emitted sample is the state clamped to
[minval, maxval] of the sample width and then truncated toward zero, as
int(min(max(v, minval), maxval)) does. -/
def hpGo (alpha : ℚ) (w : ℕ) : List ℚ → List ℤ → List (List ℤ) → List (List ℤ)
  | _, _, [] => []
  | st, prev, fr :: frs =>
    let ns := List.zipWith (fun lv xp => alpha * (lv + (xp.1 : ℚ) - (xp.2 : ℚ)))
      st (fr.zip prev)
    ns.map (fun v => ratTrunc (min (max v (-((2 : ℚ) ^ (8 * w - 1))))
      ((2 : ℚ) ^ (8 * w - 1) - 1))) :: hpGo alpha w ns fr frs

/-- pydub high_pass_filter on interleaved samples, first frame copied. -/
def hpFilterData (alpha : ℚ) (w ch : ℕ) (data : List ℤ) : List ℤ :=
  let fc := data.length / ch
  let full := data.take (fc * ch)
  let rem := data.drop (fc * ch)
  match toFramesF full.length ch full with
  | [] => data
  | f0 :: frs => (f0 :: hpGo alpha w (f0.map (fun x => (x : ℚ))) f0 frs).flatten ++ rem

/-- AudioSegment.low_pass_filter. -/
def lowPass (G : GainModel) (cutoff : ℕ) (s : AudioSeg) : AudioSeg :=
  ⟨s.rate, s.channels, s.width, lpFilterData (alphaLP G cutoff s.rate) s.channels s.samples⟩

/-- AudioSegment.high_pass_filter. -/
def highPass (G : GainModel) (cutoff : ℕ) (s : AudioSeg) : AudioSeg :=
  ⟨s.rate, s.channels, s.width,
    hpFilterData (alphaHP G cutoff s.rate) s.width s.channels s.samples⟩

/-- AudioSegment.apply_gain(db): every sample is multiplied by
db_to_float(db) = 10^(db/20); audioop.mul floors the product and clamps
it to the representable range. -/
def applyGainSeg (G : GainModel) (db : ℚ) (s : AudioSeg) : AudioSeg :=
  ⟨s.rate, s.channels, s.width,
    s.samples.map (fun x : ℤ => clampW s.width (ratFloor ((x : ℚ) * G.dbToFloat db)))⟩

/-- AudioSegment.overlay at position 0: clamped sample-wise addition over
the overlap, the remainder of the first operand unchanged. -/
def overlayData (w : ℕ) (d1 d2 : List ℤ) : List ℤ :=
  List.zipWith (fun a b => clampW w (a + b)) d1 d2 ++ d1.drop d2.length

/-- Overlay of two segments (the pipeline only overlays segments of equal
format, so the format of the first operand is kept). -/
def overlaySeg (s1 s2 : AudioSeg) : AudioSeg :=
  ⟨s1.rate, s1.channels, s1.width, overlayData s1.width s1.samples s2.samples⟩

/-- audioop.max: the largest absolute sample value. -/
def peakAbs (samples : List ℤ) : ℕ := (samples.map Int.natAbs).foldr max 0

/-- pydub max_possible_amplitude: 2^(8 width) / 2. -/
def maxAmp (w : ℕ) : ℕ := 2 ^ (8 * w) / 2

/-- pydub effects.normalize with the default 0.1 dB headroom: a silent
segment is returned unchanged, otherwise every sample is scaled by
target/peak where target = max_possible_amplitude * db_to_float(-0.1)
(the composition ratio_to_db then db_to_float cancels exactly), floored
and clamped as audioop.mul does. -/
def normalizeSeg (G : GainModel) (s : AudioSeg) : AudioSeg :=
  let p := peakAbs s.samples
  if p = 0 then s
  else
    let t : ℚ := (maxAmp s.width : ℚ) * G.dbToFloat (-(1/10))
    ⟨s.rate, s.channels, s.width,
      s.samples.map (fun x : ℤ => clampW s.width (ratFloor ((x : ℚ) * (t / p))))⟩

/-- Model of pydub set_frame_rate / audioop.ratecv resampling.  The
ratecv loop (state None starts the accumulator at -outrate, each consumed
input frame adds outrate, each emitted frame subtracts inrate) produces
floor((n-1) * outrate / inrate) + 1 output frames for n >= 1 input frames
and none for n = 0; since the ratio is exact this is independent of the
gcd reduction ratecv performs.  The sample values of a resampled frame
are taken from the nearest source frame (the precise interpolation
audioop performs is abstracted; the frame count and hence the duration
are faithful). -/
def resampleTo (r2 : ℕ) (s : AudioSeg) : AudioSeg :=
  let n := s.samples.length / s.channels
  let L := if n = 0 then 0 else (n - 1) * r2 / s.rate + 1
  ⟨r2, s.channels, s.width,
    (List.range (L * s.channels)).map
      (fun k => s.samples.getD ((min (k / s.channels * s.rate / r2) (n - 1)) * s.channels
        + k % s.channels) 0)⟩

/-- AudioSegment.set_frame_rate(24000): the identity when the declared
rate is already 24000, a resample otherwise. -/
def setFrameRate24 (s : AudioSeg) : AudioSeg :=
  if s.rate = 24000 then s else resampleTo 24000 s

/-- AudioSegment._spawn with a frame_rate override: same raw data, new
declared rate. -/
def spawnRate (nr : ℕ) (s : AudioSeg) : AudioSeg :=
  ⟨nr, s.channels, s.width, s.samples⟩

/-- Pitch-shift stage (both variants): skip when pitch == 0, otherwise
reinterpret the raw samples at rate*(2^(pitch/12)) (int() truncation) and
normalize the declared rate back to 24000. -/
def pitchStage (G : GainModel) (pc : ℚ) (s : AudioSeg) : AudioSeg :=
  if pc ≠ 0 then setFrameRate24 (spawnRate (ratFloor ((s.rate : ℚ) * G.pitchFactor pc)).toNat s)
  else s

/-- Speed stage (both variants): skip when speed == 100, otherwise
reinterpret at rate*(speed/100) and normalize the declared rate to
24000. -/
def speedStage (sp : ℚ) (s : AudioSeg) : AudioSeg :=
  if sp ≠ 100 then setFrameRate24 (spawnRate (ratFloor ((s.rate : ℚ) * (sp / 100))).toNat s)
  else s

/-- Bass stage of process_audio in main.py: for every nonzero bass value
the segment is low-pass filtered at 150 Hz and gained. -/
def bassStageMain (G : GainModel) (bq : ℚ) (s : AudioSeg) : AudioSeg :=
  if bq ≠ 0 then applyGainSeg G bq (lowPass G 150 s) else s

/-- Treble stage of process_audio in main.py: for every nonzero treble
value the segment is high-pass filtered at 3000 Hz and gained. -/
def trebleStageMain (G : GainModel) (tq : ℚ) (s : AudioSeg) : AudioSeg :=
  if tq ≠ 0 then applyGainSeg G tq (highPass G 3000 s) else s

/-- Bass stage of process_audio_effects in main_api.py: for every nonzero
bass value the 150 Hz shelf overlay runs; when bass is positive a second
200 Hz shelf overlay runs on the result. -/
def bassStageApi (G : GainModel) (bq : ℚ) (s : AudioSeg) : AudioSeg :=
  if bq ≠ 0 then
    let a1 := overlaySeg (applyGainSeg G bq (lowPass G 150 s)) (highPass G 150 s)
    if 0 < bq then overlaySeg (applyGainSeg G bq (lowPass G 200 a1)) (highPass G 200 a1)
    else a1
  else s

/-- Treble stage of process_audio_effects in main_api.py: only a positive
treble value has any effect (the 3000 Hz shelf overlay). -/
def trebleStageApi (G : GainModel) (tq : ℚ) (s : AudioSeg) : AudioSeg :=
  if tq ≠ 0 then
    (if 0 < tq then overlaySeg (applyGainSeg G tq (highPass G 3000 s)) (lowPass G 3000 s)
     else s)
  else s

/-- Volume-gain stage (both variants): apply_gain when nonzero. -/
def gainStage (G : GainModel) (g : ℚ) (s : AudioSeg) : AudioSeg :=
  if g ≠ 0 then applyGainSeg G g s else s

/-- Normalization stage (both variants): effects.normalize when the flag
is set. -/
def normStage (G : GainModel) (nz : Bool) (s : AudioSeg) : AudioSeg :=
  if nz then normalizeSeg G s else s

/-- The EffectParameters record. -/
structure Params where
  pitch : ℚ
  speed : ℚ
  bass : ℚ
  treble : ℚ
  gain : ℚ
  normalize : Bool
  deriving DecidableEq

/-- The same parameters with normalization switched off. -/
def Params.withoutNorm (p : Params) : Params :=
  ⟨p.pitch, p.speed, p.bass, p.treble, p.gain, false⟩

/-- The transform chain of process_audio (main.py), in source order:
pitch, speed, bass, treble, gain, normalize. -/
def applyEffectsMain (G : GainModel) (p : Params) (s : AudioSeg) : AudioSeg :=
  normStage G p.normalize (gainStage G p.gain (trebleStageMain G p.treble
    (bassStageMain G p.bass (speedStage p.speed (pitchStage G p.pitch s)))))

/-- The transform chain of process_audio_effects (main_api.py), in source
order. -/
def applyEffectsApi (G : GainModel) (p : Params) (s : AudioSeg) : AudioSeg :=
  normStage G p.normalize (gainStage G p.gain (trebleStageApi G p.treble
    (bassStageApi G p.bass (speedStage p.speed (pitchStage G p.pitch s)))))

/-- Result of an effects processor run. -/
inductive ProcResult
  | ok (bytes : List ℕ)
  | decodeError
  deriving DecidableEq

/-- process_audio in main.py: decode the container, apply the chain,
re-encode. -/
def processMain (G : GainModel) (p : Params) (wav : List ℕ) : ProcResult :=
  match wavDecode wav with
  | none => .decodeError
  | some s => .ok (wavEncodeSeg (applyEffectsMain G p s))

/-- process_audio_effects in main_api.py: decode, apply the chain,
re-encode. -/
def processApi (G : GainModel) (p : Params) (wav : List ℕ) : ProcResult :=
  match wavDecode wav with
  | none => .decodeError
  | some s => .ok (wavEncodeSeg (applyEffectsApi G p s))

/-- A synthesis chunk: the optional payload fields probed by
getattr(c, "data", getattr(c, "samples", c)), the raw-bytes fallback, and
the optional metadata fields.  The rate and sampleRate fields exist so
that the field-probing order the specification claims can be stated. -/
structure Chunk where
  data : Option (List ℕ)
  samples : Option (List ℕ)
  raw : List ℕ
  sample_rate : Option ℕ
  rate : Option ℕ
  sampleRate : Option ℕ
  channels : Option ℕ
  sample_width : Option ℕ
  deriving DecidableEq

/-- Chunk payload: the data field when present, else the samples field,
else the chunk itself as raw bytes. -/
def payload (c : Chunk) : List ℕ :=
  match c.data with
  | some d => d
  | none =>
    match c.samples with
    | some sm => sm
    | none => c.raw

/-- Sample rate the code derives: only the sample_rate field is probed,
with fallback 24000. -/
def chunkRate (c : Chunk) : ℕ := c.sample_rate.getD 24000

/-- Channel count the code derives: the channels field, fallback 1. -/
def chunkChannels (c : Chunk) : ℕ := c.channels.getD 1

/-- Sample width the code derives: the sample_width field, fallback 2. -/
def chunkWidth (c : Chunk) : ℕ := c.sample_width.getD 2

/-- Modelled from the spec: the field-probing priority order the
specification claims for the sample-rate metadata (sample_rate, then
rate, then sampleRate, first present field wins, fallback 24000).  The
code in src probes only sample_rate; this definition exists to compare
the specification text against the code. -/
def specChunkRate (c : Chunk) : ℕ :=
  match c.sample_rate with
  | some v => v
  | none =>
    match c.rate with
    | some v => v
    | none =>
      match c.sampleRate with
      | some v => v
      | none => 24000

/-- The raw-chunk fallback encoding of synthesize_bytes: concatenate the
per-chunk payloads in order and wrap them in a canonical container whose
metadata comes from the first chunk. -/
def fallbackEncode : List Chunk → List ℕ
  | [] => []
  | first :: rest =>
    wavEncodeBytes (chunkRate first) (chunkChannels first) (chunkWidth first)
      (((first :: rest).map payload).flatten)

/-- Result of a synthesize_bytes run.  synthesisError stands for the
ValueError("No audio generated") of main_api.py (the SynthesisError of
the specification); indexError stands for the IndexError that
chunks[0] raises in main.py on an empty chunk list. -/
inductive SynthResult
  | ok (bytes : List ℕ)
  | synthesisError
  | indexError
  deriving DecidableEq

/-- The raw-chunk fallback of synthesize_bytes in main_api.py: an empty
chunk sequence raises ValueError("No audio generated"). -/
def apiFallback (cs : List Chunk) : SynthResult :=
  match cs with
  | [] => .synthesisError
  | first :: rest => .ok (fallbackEncode (first :: rest))

/-- The raw-chunk fallback of synthesize_bytes in main.py: there is no
empty-sequence check, chunks[0] raises IndexError. -/
def mainFallback (cs : List Chunk) : SynthResult :=
  match cs with
  | [] => .indexError
  | first :: rest => .ok (fallbackEncode (first :: rest))

/-- Outcome of the direct-container attempt (voice.synthesize_wav into an
in-memory wave writer): either the bytes it left in the buffer, or an
exception. -/
inductive DirectResult
  | ok (bytes : List ℕ)
  | raises
  deriving DecidableEq

/-- synthesize_bytes in main_api.py: accept the direct result when it is
longer than the 44-byte header, otherwise (short result or exception)
fall through to the raw-chunk fallback. -/
def apiSynthesize (d : DirectResult) (cs : List Chunk) : SynthResult :=
  match d with
  | .ok b => if 44 < b.length then .ok b else apiFallback cs
  | .raises => apiFallback cs

/-- synthesize_bytes in main.py: identical acceptance logic, but the
fallback has no empty-sequence check. -/
def mainSynthesize (d : DirectResult) (cs : List Chunk) : SynthResult :=
  match d with
  | .ok b => if 44 < b.length then .ok b else mainFallback cs
  | .raises => mainFallback cs

/-- The direct-container attempt failed: it raised, or its output did not
exceed the 44-byte header. -/
def directFails (d : DirectResult) : Prop :=
  match d with
  | .ok b => b.length ≤ 44
  | .raises => True

/-- Frame count of a decoded waveform. -/
def frameCount (s : AudioSeg) : ℕ := s.samples.length / s.channels

/-- Duration in seconds, as an exact rational. -/
def durationQ (s : AudioSeg) : ℚ := (frameCount s : ℚ) / (s.rate : ℚ)

theorem leEncode_length (w v : ℕ) : (leEncode w v).length = w := by
  induction w generalizing v with
  | zero => rfl
  | succ w ih => simp [leEncode, ih]

theorem leDecode_leEncode (w v : ℕ) (h : v < 256 ^ w) :
    leDecode (leEncode w v) = v := by
  induction w generalizing v with
  | zero =>
    simp [leEncode, leDecode]
    omega
  | succ w ih =>
    have hd : v / 256 < 256 ^ w := by
      rw [Nat.div_lt_iff_lt_mul (by norm_num)]
      calc v < 256 ^ (w + 1) := h
        _ = 256 ^ w * 256 := by ring
    simp [leEncode, leDecode, ih _ hd]
    omega

theorem leEncode_leDecode (bs : List ℕ) (hb : ∀ x ∈ bs, x < 256) :
    leEncode bs.length (leDecode bs) = bs := by
  induction bs with
  | nil => rfl
  | cons b bs ih =>
    have hblt : b < 256 := hb b (by simp)
    have hrest : ∀ x ∈ bs, x < 256 := fun x hx => hb x (by simp [hx])
    simp only [List.length_cons, leEncode, leDecode]
    rw [show (b + 256 * leDecode bs) % 256 = b by omega,
      show (b + 256 * leDecode bs) / 256 = leDecode bs by omega, ih hrest]

theorem leEncode_leDecode_len (w : ℕ) (bs : List ℕ) (hlen : bs.length = w)
    (hb : ∀ x ∈ bs, x < 256) : leEncode w (leDecode bs) = bs :=
  hlen ▸ leEncode_leDecode bs hb

theorem take_len_append {α : Type} (A B : List α) (w : ℕ) (h : A.length = w) :
    (A ++ B).take w = A :=
  h ▸ List.take_left A B

theorem drop_len_append {α : Type} (A B : List α) (w : ℕ) (h : A.length = w) :
    (A ++ B).drop w = B :=
  h ▸ List.drop_left A B

theorem pow256 (w : ℕ) : (256 : ℕ) ^ w = 2 ^ (8 * w) := by
  rw [show (256 : ℕ) = 2 ^ 8 by norm_num, ← pow_mul]

theorem leDecode_lt (bs : List ℕ) (hb : ∀ x ∈ bs, x < 256) :
    leDecode bs < 256 ^ bs.length := by
  induction bs with
  | nil => simp [leDecode]
  | cons b bs ih =>
    have hblt : b < 256 := hb b (by simp)
    have hrest := ih (fun x hx => hb x (by simp [hx]))
    simp only [leDecode, List.length_cons, pow_succ]
    nlinarith

theorem fromSigned_lt (w : ℕ) (s : ℤ) : fromSigned w s < 2 ^ (8 * w) := by
  unfold fromSigned
  have hm : (0 : ℤ) < 2 ^ (8 * w) := by positivity
  have hA : ((2 ^ (8 * w) : ℕ) : ℤ) = (2 : ℤ) ^ (8 * w) := by push_cast; rfl
  have h2 := Int.emod_lt_of_pos s hm
  have h0 := Int.emod_nonneg s (ne_of_gt hm)
  omega

theorem fromSigned_toSigned (w v : ℕ) (h : v < 2 ^ (8 * w)) :
    fromSigned w (toSigned w v) = v := by
  have hA : ((2 ^ (8 * w) : ℕ) : ℤ) = (2 : ℤ) ^ (8 * w) := by push_cast; rfl
  have hvm : (v : ℤ) % (2 : ℤ) ^ (8 * w) = (v : ℤ) :=
    Int.emod_eq_of_lt (by positivity) (by omega)
  unfold toSigned fromSigned
  split
  · rw [hvm]
    simp
  · have hsub : ((v : ℤ) - 2 ^ (8 * w)) % 2 ^ (8 * w) = (v : ℤ) % 2 ^ (8 * w) := by
      rw [show (v : ℤ) - 2 ^ (8 * w) = v + -1 * 2 ^ (8 * w) by ring]
      exact Int.add_mul_emod_self
    rw [hsub, hvm]
    simp

theorem toSigned_fromSigned (w : ℕ) (s : ℤ) (hw : 0 < w)
    (hlo : -(2 ^ (8 * w - 1)) ≤ s) (hhi : s < 2 ^ (8 * w - 1)) :
    toSigned w (fromSigned w s) = s := by
  have hsplitZ : (2 : ℤ) ^ (8 * w) = 2 * 2 ^ (8 * w - 1) := by
    rw [← pow_succ']
    congr 1
    omega
  have hA : ((2 ^ (8 * w) : ℕ) : ℤ) = (2 : ℤ) ^ (8 * w) := by push_cast; rfl
  have hB : (0 : ℤ) < 2 ^ (8 * w - 1) := by positivity
  have hm : (0 : ℤ) < 2 ^ (8 * w) := by positivity
  unfold toSigned fromSigned
  rcases le_or_lt 0 s with hs | hs
  · have hmod : s % 2 ^ (8 * w) = s := Int.emod_eq_of_lt hs (by omega)
    rw [hmod]
    have hts : (s.toNat : ℤ) = s := Int.toNat_of_nonneg hs
    split
    · exact hts
    · rename_i hc
      exfalso
      omega
  · have hmod : s % 2 ^ (8 * w) = s + 2 ^ (8 * w) := by
      have h1 : (s + 2 ^ (8 * w)) % 2 ^ (8 * w) = s % 2 ^ (8 * w) := by
        rw [show s + (2 : ℤ) ^ (8 * w) = s + 1 * 2 ^ (8 * w) by ring]
        exact Int.add_mul_emod_self
      rw [← h1]
      exact Int.emod_eq_of_lt (by omega) (by omega)
    rw [hmod]
    have hts : ((s + 2 ^ (8 * w)).toNat : ℤ) = s + 2 ^ (8 * w) :=
      Int.toNat_of_nonneg (by omega)
    split
    · rename_i hc
      exfalso
      omega
    · omega

theorem toFramesF_fuel {α : Type} (c : ℕ) (hc : 0 < c) :
    ∀ (m : ℕ) (d : List α), d.length ≤ m → toFramesF m c d = toFramesF d.length c d := by
  intro m
  induction m using Nat.strong_induction_on with
  | _ m ih =>
    intro d hlen
    cases m with
    | zero =>
      cases d with
      | nil => rfl
      | cons a as => simp at hlen
    | succ m =>
      cases d with
      | nil => rfl
      | cons a as =>
        simp only [List.length_cons]
        simp only [toFramesF]
        have hX : ((a :: as).drop c).length ≤ as.length := by
          simp only [List.length_drop, List.length_cons]
          omega
        have h1 : as.length ≤ m := by
          simp only [List.length_cons] at hlen
          omega
        rw [ih m (Nat.lt_succ_self m) _ (le_trans hX h1),
          ih as.length (by omega) _ hX]

theorem bytesToSamples_cons (w : ℕ) (hw : 0 < w) (body : List ℕ)
    (hlen : w ≤ body.length) :
    bytesToSamples w body =
      toSigned w (leDecode (body.take w)) :: bytesToSamples w (body.drop w) := by
  cases body with
  | nil =>
    simp only [List.length_nil] at hlen
    omega
  | cons b bs =>
    unfold bytesToSamples
    simp only [List.length_cons]
    simp only [toFramesF, List.map_cons]
    congr 1
    congr 1
    exact toFramesF_fuel w hw bs.length _ (by simp only [List.length_drop, List.length_cons]; omega)

theorem samplesToBytes_cons (w : ℕ) (s : ℤ) (rest : List ℤ) :
    samplesToBytes w (s :: rest) = leEncode w (fromSigned w s) ++ samplesToBytes w rest := by
  simp [samplesToBytes]

theorem samplesToBytes_bytesToSamples (w : ℕ) (hw : 0 < w) :
    ∀ (n : ℕ) (body : List ℕ), body.length ≤ n → w ∣ body.length →
      (∀ x ∈ body, x < 256) → samplesToBytes w (bytesToSamples w body) = body := by
  intro n
  induction n with
  | zero =>
    intro body hlen _ _
    have hnil : body = [] := List.eq_nil_of_length_eq_zero (by omega)
    subst hnil
    rfl
  | succ n ih =>
    intro body hlen hdvd hb
    cases body with
    | nil => rfl
    | cons b bs =>
      have hwle : w ≤ (b :: bs).length := Nat.le_of_dvd (by simp) hdvd
      rw [bytesToSamples_cons w hw _ hwle, samplesToBytes_cons]
      have htake : ((b :: bs).take w).length = w := by
        rw [List.length_take]
        omega
      have htb : ∀ x ∈ (b :: bs).take w, x < 256 :=
        fun x hx => hb x (List.mem_of_mem_take hx)
      have hdec : leDecode ((b :: bs).take w) < 2 ^ (8 * w) := by
        have h1 := leDecode_lt _ htb
        rw [htake, show (256 : ℕ) = 2 ^ 8 by norm_num, ← pow_mul] at h1
        exact h1
      rw [fromSigned_toSigned w _ hdec, leEncode_leDecode_len w _ htake htb,
        ih ((b :: bs).drop w)
          (by
            simp only [List.length_drop, List.length_cons]
            simp only [List.length_cons] at hlen
            omega)
          (by rw [List.length_drop]; exact Nat.dvd_sub' hdvd dvd_rfl)
          (fun x hx => hb x (List.mem_of_mem_drop hx))]
      exact List.take_append_drop w (b :: bs)

theorem bytesToSamples_samplesToBytes (w : ℕ) (hw : 0 < w) (samples : List ℤ)
    (hs : ∀ s ∈ samples, -(2 ^ (8 * w - 1)) ≤ s ∧ s < 2 ^ (8 * w - 1)) :
    bytesToSamples w (samplesToBytes w samples) = samples := by
  induction samples with
  | nil => rfl
  | cons s rest ih =>
    rw [samplesToBytes_cons]
    have hel : (leEncode w (fromSigned w s)).length = w := leEncode_length w _
    have hlen : w ≤ (leEncode w (fromSigned w s) ++ samplesToBytes w rest).length := by
      rw [List.length_append, hel]
      omega
    rw [bytesToSamples_cons w hw _ hlen]
    have hflt : fromSigned w s < 256 ^ w := by
      rw [pow256]
      exact fromSigned_lt w s
    rw [take_len_append _ _ _ hel, drop_len_append _ _ _ hel,
      leDecode_leEncode w _ hflt,
      toSigned_fromSigned w s hw (hs s (by simp)).1 (hs s (by simp)).2,
      ih (fun x hx => hs x (by simp [hx]))]

theorem wavHeader_length (r c w L : ℕ) : (wavHeader r c w L).length = 44 := rfl

theorem wavEncodeBytes_length (r c w : ℕ) (body : List ℕ) :
    (wavEncodeBytes r c w body).length = 44 + body.length := by
  rw [wavEncodeBytes, List.length_append, wavHeader_length]

theorem wavDecode_wavEncodeBytes (r c w : ℕ) (body : List ℕ)
    (hr : r < 2 ^ 32) (hc0 : 0 < c) (hc : c < 2 ^ 16) (hw0 : 0 < w) (hw : 8 * w < 2 ^ 16)
    (hdvd : c * w ∣ body.length) (hb : ∀ x ∈ body, x < 256) :
    wavDecode (wavEncodeBytes r c w body) = some ⟨r, c, w, bytesToSamples w body⟩ := by
  have hdrop : (wavEncodeBytes r c w body).drop 44 = body := by
    rw [wavEncodeBytes, show (44 : ℕ) = (wavHeader r c w body.length).length from rfl,
      List.drop_left]
  have hg : ∀ i : ℕ, i < 44 →
      (wavEncodeBytes r c w body).getD i 0 = (wavHeader r c w body.length).getD i 0 := by
    intro i hi
    rw [wavEncodeBytes]
    exact List.getD_append _ _ _ _ (by rw [wavHeader_length]; omega)
  have hc16 : u16 (wavEncodeBytes r c w body) 22 = c := by
    unfold u16
    rw [hg 22 (by omega), hg 23 (by omega)]
    show c % 256 + 256 * (c / 256 % 256) = c
    omega
  have hr32 : u32 (wavEncodeBytes r c w body) 24 = r := by
    unfold u32 u16
    rw [hg 24 (by omega), hg 25 (by omega), hg 26 (by omega), hg 27 (by omega)]
    show r % 256 + 256 * (r / 256 % 256) + 65536 * (r / 65536 % 256 + 256 * (r / 16777216 % 256)) = r
    omega
  have hbits : u16 (wavEncodeBytes r c w body) 34 = 8 * w := by
    unfold u16
    rw [hg 34 (by omega), hg 35 (by omega)]
    show 8 * w % 256 + 256 * (8 * w / 256 % 256) = 8 * w
    omega
  unfold wavDecode
  simp only [hc16, hr32, hbits, hdrop]
  have hw8 : 8 * w / 8 = w := by omega
  rw [hw8]
  rw [if_pos ⟨hc0, hw0, rfl, hdvd, hb, rfl⟩]

theorem speed200_rate (r : ℕ) : (ratFloor ((r : ℚ) * (200 / 100))).toNat = 2 * r := by
  rw [ratFloor_eq_floor, show ((200 : ℚ) / 100) = 2 by norm_num,
    show (r : ℚ) * 2 = ((2 * r : ℕ) : ℚ) by push_cast; ring, Int.floor_natCast]
  omega

theorem speed50_rate (r : ℕ) : (ratFloor ((r : ℚ) * (50 / 100))).toNat = r / 2 := by
  have h1 : (r : ℚ) * (50 / 100) = ((r : ℕ) : ℚ) / ((2 : ℕ) : ℚ) := by push_cast; ring
  rw [ratFloor_eq_floor, h1, Rat.floor_natCast_div_natCast]
  omega

theorem resampleTo_channels (r2 : ℕ) (s : AudioSeg) :
    (resampleTo r2 s).channels = s.channels := rfl

theorem resampleTo_samples_length (r2 : ℕ) (s : AudioSeg) :
    (resampleTo r2 s).samples.length =
      (if s.samples.length / s.channels = 0 then 0
       else (s.samples.length / s.channels - 1) * r2 / s.rate + 1) * s.channels := by
  unfold resampleTo
  simp

theorem frameCount_resampleTo (r2 : ℕ) (s : AudioSeg) (hc : 0 < s.channels) :
    frameCount (resampleTo r2 s) =
      (if s.samples.length / s.channels = 0 then 0
       else (s.samples.length / s.channels - 1) * r2 / s.rate + 1) := by
  unfold frameCount
  rw [resampleTo_samples_length, resampleTo_channels]
  exact Nat.mul_div_cancel _ hc

theorem durationQ_setFrameRate24 (s : AudioSeg) (hr : 0 < s.rate) (hc : 0 < s.channels) :
    ((frameCount s - 1 : ℕ) : ℚ) / (s.rate : ℚ) ≤ durationQ (setFrameRate24 s) ∧
    durationQ (setFrameRate24 s) ≤ ((frameCount s - 1 : ℕ) : ℚ) / (s.rate : ℚ) + 1 / 24000 := by
  have hrQ : (0 : ℚ) < (s.rate : ℚ) := by exact_mod_cast hr
  unfold setFrameRate24
  split_ifs with h24
  · unfold durationQ
    rw [h24]
    push_cast
    constructor
    · have hx : ((frameCount s - 1 : ℕ) : ℚ) ≤ (frameCount s : ℚ) := by
        exact_mod_cast Nat.sub_le _ _
      linarith
    · have hx : (frameCount s : ℚ) ≤ ((frameCount s - 1 : ℕ) : ℚ) + 1 := by
        have hy : frameCount s ≤ frameCount s - 1 + 1 := by omega
        exact_mod_cast hy
      linarith
  · have hrate24 : (resampleTo 24000 s).rate = 24000 := rfl
    have hfc := frameCount_resampleTo 24000 s hc
    have hd : durationQ (resampleTo 24000 s) =
        (frameCount (resampleTo 24000 s) : ℚ) / 24000 := by
      unfold durationQ
      rw [hrate24]
      norm_num
    rw [hd, hfc]
    have hfcs : s.samples.length / s.channels = frameCount s := rfl
    rw [hfcs]
    by_cases hn0 : frameCount s = 0
    · rw [if_pos hn0, hn0]
      norm_num
    · rw [if_neg hn0]
      set m := frameCount s - 1 with hm
      set q := m * 24000 / s.rate with hq
      have hdm := Nat.div_add_mod (m * 24000) s.rate
      have hml := Nat.mod_lt (m * 24000) hr
      have hcomm : q * s.rate = s.rate * q := Nat.mul_comm _ _
      have hb1 : q * s.rate ≤ m * 24000 := by
        generalize hS : q * s.rate = S at hcomm ⊢
        generalize hT : s.rate * q = T at hdm hcomm
        omega
      have hb2 : m * 24000 < q * s.rate + s.rate := by
        generalize hS : q * s.rate = S at hcomm ⊢
        generalize hT : s.rate * q = T at hdm hcomm
        omega
      constructor
      · rw [div_le_div_iff hrQ (by norm_num : (0 : ℚ) < 24000)]
        have hx : m * 24000 ≤ (q + 1) * s.rate := by
          have h5 : (q + 1) * s.rate = q * s.rate + s.rate := Nat.succ_mul _ _
          omega
        calc (m : ℚ) * 24000 = ((m * 24000 : ℕ) : ℚ) := by push_cast; ring
          _ ≤ (((q + 1) * s.rate : ℕ) : ℚ) := by exact_mod_cast hx
          _ = ((q + 1 : ℕ) : ℚ) * (s.rate : ℚ) := by push_cast; ring
      · have hkey : (q : ℚ) / 24000 ≤ (m : ℚ) / (s.rate : ℚ) := by
          rw [div_le_div_iff (by norm_num : (0 : ℚ) < 24000) hrQ]
          calc (q : ℚ) * (s.rate : ℚ) = ((q * s.rate : ℕ) : ℚ) := by push_cast; ring
            _ ≤ ((m * 24000 : ℕ) : ℚ) := by exact_mod_cast hb1
            _ = (m : ℚ) * 24000 := by push_cast; ring
        have hcast : ((q + 1 : ℕ) : ℚ) = (q : ℚ) + 1 := by push_cast; ring
        rw [hcast]
        linarith

theorem peakAbs_le (l : List ℤ) (B : ℕ) (h : ∀ y ∈ l, y.natAbs ≤ B) : peakAbs l ≤ B := by
  induction l with
  | nil => simp [peakAbs]
  | cons a l ih =>
    have h1 := h a (by simp)
    have h2 := ih (fun y hy => h y (by simp [hy]))
    simp only [peakAbs, List.map_cons, List.foldr_cons]
    simp only [peakAbs] at h2
    omega

theorem le_peakAbs_of_mem (l : List ℤ) (y : ℤ) (h : y ∈ l) : y.natAbs ≤ peakAbs l := by
  induction l with
  | nil => cases h
  | cons a l ih =>
    simp only [peakAbs, List.map_cons, List.foldr_cons]
    rcases List.mem_cons.1 h with rfl | hmem
    · exact le_max_left _ _
    · have h2 := ih hmem
      simp only [peakAbs] at h2
      exact le_trans h2 (le_max_right _ _)

theorem peakAbs_attained (l : List ℤ) (hne : peakAbs l ≠ 0) :
    ∃ y ∈ l, y.natAbs = peakAbs l := by
  induction l with
  | nil => simp [peakAbs] at hne
  | cons a l ih =>
    simp only [peakAbs, List.map_cons, List.foldr_cons] at hne ⊢
    rcases Nat.le_total a.natAbs ((l.map Int.natAbs).foldr max 0) with hle | hle
    · rw [max_eq_right hle] at hne ⊢
      obtain ⟨y, hy, hey⟩ := ih hne
      exact ⟨y, by simp [hy], hey⟩
    · rw [max_eq_left hle]
      exact ⟨a, by simp, rfl⟩

theorem clampW_bounds (w : ℕ) (v : ℤ) :
    -(2 ^ (8 * w - 1)) ≤ clampW w v ∧ clampW w v ≤ 2 ^ (8 * w - 1) - 1 := by
  unfold clampW
  have hM : (0 : ℤ) < 2 ^ (8 * w - 1) := by positivity
  refine ⟨le_max_left _ _, max_le (by omega) (min_le_right _ _)⟩

theorem natAbs_clampW_le (w : ℕ) (v : ℤ) : (clampW w v).natAbs ≤ 2 ^ (8 * w - 1) := by
  have h := clampW_bounds w v
  have hA : ((2 ^ (8 * w - 1) : ℕ) : ℤ) = (2 : ℤ) ^ (8 * w - 1) := by push_cast; rfl
  omega

theorem clampW_eq_self (w : ℕ) (v : ℤ) (h1 : -(2 ^ (8 * w - 1)) ≤ v)
    (h2 : v ≤ 2 ^ (8 * w - 1) - 1) : clampW w v = v := by
  unfold clampW
  omega

theorem maxAmp_pow (w : ℕ) (hw : 0 < w) : maxAmp w = 2 ^ (8 * w - 1) := by
  unfold maxAmp
  have hsplit : 2 ^ (8 * w) = 2 * 2 ^ (8 * w - 1) := by
    rw [← pow_succ']
    congr 1
    omega
  omega

theorem natAbs_clampW_ratFloor_ge (w : ℕ) (q : ℚ)
    (habs : |q| < ((2 ^ (8 * w - 1) : ℕ) : ℚ)) :
    |q| - 1 ≤ ((clampW w (ratFloor q)).natAbs : ℚ) := by
  have hlo : -(((2 ^ (8 * w - 1) : ℕ) : ℚ)) < q := (abs_lt.1 habs).1
  have hhi : q < ((2 ^ (8 * w - 1) : ℕ) : ℚ) := (abs_lt.1 habs).2
  have hcastZ : (((2 : ℤ) ^ (8 * w - 1) : ℤ) : ℚ) = ((2 ^ (8 * w - 1) : ℕ) : ℚ) := by
    push_cast
    ring
  have hfl_lt : ⌊q⌋ < (2 : ℤ) ^ (8 * w - 1) := by
    rw [Int.floor_lt, hcastZ]
    exact hhi
  have hfl_ge : -((2 : ℤ) ^ (8 * w - 1)) ≤ ⌊q⌋ := by
    rw [Int.le_floor]
    push_cast
    push_cast at hlo
    linarith
  rw [ratFloor_eq_floor, clampW_eq_self _ _ hfl_ge (by omega)]
  rcases le_or_lt 0 q with hq0 | hq0
  · have h0 : 0 ≤ ⌊q⌋ := Int.floor_nonneg.2 hq0
    have hcast : ((⌊q⌋.natAbs : ℕ) : ℚ) = ((⌊q⌋ : ℤ) : ℚ) := by
      rw [Int.cast_natAbs, abs_of_nonneg h0]
    rw [hcast, abs_of_nonneg hq0]
    have hsub := Int.sub_one_lt_floor q
    linarith
  · have hfle : ((⌊q⌋ : ℤ) : ℚ) ≤ q := Int.floor_le q
    have hneg : ⌊q⌋ < 0 := by
      by_contra hcon
      push_neg at hcon
      have hge : (0 : ℚ) ≤ ((⌊q⌋ : ℤ) : ℚ) := by exact_mod_cast hcon
      linarith
    have hcast : ((⌊q⌋.natAbs : ℕ) : ℚ) = -((⌊q⌋ : ℤ) : ℚ) := by
      rw [Int.cast_natAbs, abs_of_neg hneg]
      push_cast
      ring
    rw [hcast, abs_of_neg hq0]
    linarith

theorem normalizeSeg_samples (G : GainModel) (t : AudioSeg)
    (hp : peakAbs t.samples ≠ 0) :
    (normalizeSeg G t).samples = t.samples.map (fun x : ℤ => clampW t.width
      (ratFloor ((x : ℚ) * (((maxAmp t.width : ℚ) * G.dbToFloat (-(1/10))) /
        ((peakAbs t.samples : ℕ) : ℚ))))) := by
  unfold normalizeSeg
  rw [if_neg hp]

theorem normalizeSeg_peak (G : GainModel) (t : AudioSeg) (hw : 0 < t.width)
    (hp : peakAbs t.samples ≠ 0) :
    (maxAmp t.width : ℚ) * (49 / 50) - 1 ≤ (peakAbs (normalizeSeg G t).samples : ℚ) ∧
    (peakAbs (normalizeSeg G t).samples : ℚ) ≤ (maxAmp t.width : ℚ) := by
  have hMeq : maxAmp t.width = 2 ^ (8 * t.width - 1) := maxAmp_pow _ hw
  have hMQ : (0 : ℚ) < (maxAmp t.width : ℚ) := by
    rw [hMeq]
    positivity
  have hsamp := normalizeSeg_samples G t hp
  have hh2 : (49 : ℚ) / 50 < G.dbToFloat (-(1/10)) := G.headroom_gt
  have hh1 : G.dbToFloat (-(1/10)) < 1 := G.headroom_lt_one
  constructor
  · obtain ⟨y, hy, hey⟩ := peakAbs_attained _ hp
    have hpQ : (0 : ℚ) < ((peakAbs t.samples : ℕ) : ℚ) := by
      have hpos := Nat.pos_of_ne_zero hp
      exact_mod_cast hpos
    have hT0 : (0 : ℚ) < (maxAmp t.width : ℚ) * G.dbToFloat (-(1/10)) :=
      mul_pos hMQ (by linarith)
    have hTlt : (maxAmp t.width : ℚ) * G.dbToFloat (-(1/10)) < (maxAmp t.width : ℚ) := by
      nlinarith
    have hyabs : |(y : ℚ)| = ((peakAbs t.samples : ℕ) : ℚ) := by
      rw [← Int.cast_abs, Int.abs_eq_natAbs]
      exact_mod_cast hey
    have hqabs : |(y : ℚ) * (((maxAmp t.width : ℚ) * G.dbToFloat (-(1/10))) /
        ((peakAbs t.samples : ℕ) : ℚ))| =
        (maxAmp t.width : ℚ) * G.dbToFloat (-(1/10)) := by
      rw [abs_mul, abs_div, hyabs, abs_of_pos hT0, abs_of_pos hpQ]
      field_simp
    have hqlt : |(y : ℚ) * (((maxAmp t.width : ℚ) * G.dbToFloat (-(1/10))) /
        ((peakAbs t.samples : ℕ) : ℚ))| < ((2 ^ (8 * t.width - 1) : ℕ) : ℚ) := by
      rw [hqabs, ← hMeq]
      exact hTlt
    have helem := natAbs_clampW_ratFloor_ge t.width _ hqlt
    rw [hqabs] at helem
    have hmem : clampW t.width (ratFloor ((y : ℚ) *
        (((maxAmp t.width : ℚ) * G.dbToFloat (-(1/10))) /
          ((peakAbs t.samples : ℕ) : ℚ)))) ∈ t.samples.map (fun x : ℤ => clampW t.width
        (ratFloor ((x : ℚ) * (((maxAmp t.width : ℚ) * G.dbToFloat (-(1/10))) /
          ((peakAbs t.samples : ℕ) : ℚ))))) := List.mem_map_of_mem _ hy
    have hle := le_peakAbs_of_mem _ _ hmem
    rw [hsamp]
    have hleQ : ((clampW t.width (ratFloor ((y : ℚ) *
        (((maxAmp t.width : ℚ) * G.dbToFloat (-(1/10))) /
          ((peakAbs t.samples : ℕ) : ℚ))))).natAbs : ℚ) ≤
        (peakAbs (t.samples.map (fun x : ℤ => clampW t.width
          (ratFloor ((x : ℚ) * (((maxAmp t.width : ℚ) * G.dbToFloat (-(1/10))) /
            ((peakAbs t.samples : ℕ) : ℚ)))))) : ℚ) := by
      exact_mod_cast hle
    calc (maxAmp t.width : ℚ) * (49 / 50) - 1
        ≤ (maxAmp t.width : ℚ) * G.dbToFloat (-(1/10)) - 1 := by nlinarith
      _ ≤ ((clampW t.width (ratFloor ((y : ℚ) *
            (((maxAmp t.width : ℚ) * G.dbToFloat (-(1/10))) /
              ((peakAbs t.samples : ℕ) : ℚ))))).natAbs : ℚ) := helem
      _ ≤ _ := hleQ
  · rw [hsamp]
    have hub : peakAbs (t.samples.map (fun x : ℤ => clampW t.width
        (ratFloor ((x : ℚ) * (((maxAmp t.width : ℚ) * G.dbToFloat (-(1/10))) /
          ((peakAbs t.samples : ℕ) : ℚ)))))) ≤ 2 ^ (8 * t.width - 1) := by
      apply peakAbs_le
      intro z hz
      obtain ⟨x, hx, rfl⟩ := List.mem_map.1 hz
      exact natAbs_clampW_le _ _
    have h2 : peakAbs (t.samples.map (fun x : ℤ => clampW t.width
        (ratFloor ((x : ℚ) * (((maxAmp t.width : ℚ) * G.dbToFloat (-(1/10))) /
          ((peakAbs t.samples : ℕ) : ℚ)))))) ≤ maxAmp t.width := by
      omega
    exact_mod_cast h2

/-- Claim C1: in raw-chunk fallback mode, for every engine whose
direct-container path fails and which yields a non-empty chunk sequence,
both synthesize_bytes variants return the fallback container, and that
container decodes to a waveform whose sample rate, channel count and
sample width are those of the first chunk and whose raw sample bytes are
exactly the concatenation of the per-chunk payloads (the data field if
present, else the samples field, else the chunk itself as raw bytes) in
emission order. -/
theorem C1_chunk_fallback (d : DirectResult) (c0 : Chunk) (rest : List Chunk)
    (hd : directFails d)
    (hr : chunkRate c0 < 2 ^ 32) (hc0 : 0 < chunkChannels c0)
    (hc : chunkChannels c0 < 2 ^ 16) (hw0 : 0 < chunkWidth c0)
    (hw : 8 * chunkWidth c0 < 2 ^ 16)
    (hdvd : chunkChannels c0 * chunkWidth c0 ∣ (((c0 :: rest).map payload).flatten).length)
    (hb : ∀ x ∈ ((c0 :: rest).map payload).flatten, x < 256) :
    apiSynthesize d (c0 :: rest) = .ok (fallbackEncode (c0 :: rest)) ∧
    mainSynthesize d (c0 :: rest) = .ok (fallbackEncode (c0 :: rest)) ∧
    wavDecode (fallbackEncode (c0 :: rest)) =
      some ⟨chunkRate c0, chunkChannels c0, chunkWidth c0,
        bytesToSamples (chunkWidth c0) (((c0 :: rest).map payload).flatten)⟩ ∧
    samplesToBytes (chunkWidth c0)
        (bytesToSamples (chunkWidth c0) (((c0 :: rest).map payload).flatten)) =
      ((c0 :: rest).map payload).flatten := by
  refine ⟨?_, ?_, ?_, ?_⟩
  · cases d with
    | ok b =>
      simp only [directFails] at hd
      simp only [apiSynthesize]
      rw [if_neg (by omega)]
      rfl
    | raises => rfl
  · cases d with
    | ok b =>
      simp only [directFails] at hd
      simp only [mainSynthesize]
      rw [if_neg (by omega)]
      rfl
    | raises => rfl
  · unfold fallbackEncode
    exact wavDecode_wavEncodeBytes _ _ _ _ hr hc0 hc hw0 hw hdvd hb
  · exact samplesToBytes_bytesToSamples _ hw0 _ _ le_rfl
      (dvd_trans (dvd_mul_left _ _) hdvd) hb

/-- Witness for C1, at the chunk-fallback example of the specification:
three chunks carrying their payload in the data field, the samples field
and the raw bytes respectively, with first-chunk metadata 22050 Hz, 1
channel, 2-byte width. -/
theorem C1_chunk_fallback_witness :
    (directFails DirectResult.raises ∧
      0 < chunkChannels ⟨some [1, 2], none, [], some 22050, none, none, some 1, some 2⟩) ∧
    wavDecode (fallbackEncode
        [⟨some [1, 2], none, [], some 22050, none, none, some 1, some 2⟩,
         ⟨none, some [3, 4], [], none, none, none, none, none⟩,
         ⟨none, none, [5, 6], none, none, none, none, none⟩]) =
      some ⟨22050, 1, 2, bytesToSamples 2 [1, 2, 3, 4, 5, 6]⟩ := by
  constructor
  · exact ⟨trivial, by decide⟩
  · exact (C1_chunk_fallback DirectResult.raises
      ⟨some [1, 2], none, [], some 22050, none, none, some 1, some 2⟩
      [⟨none, some [3, 4], [], none, none, none, none, none⟩,
       ⟨none, none, [5, 6], none, none, none, none, none⟩]
      trivial (by decide) (by decide) (by decide) (by decide) (by decide) (by decide)
      (by decide)).2.2.1

unseal Rat.add Rat.mul Rat.sub Rat.inv in
/-- Claim C2 counterexample: the claim says a negative bassGainDb leaves
the audio unchanged by the bass stage, but process_audio in main.py runs
the bass stage for every nonzero value: with bassGainDb = -6 and every
other parameter at its no-op value, the output of a one-sample container
differs from the input. -/
theorem C2_counterexample :
    processMain ratPrims ⟨0, 100, -6, 0, 0, false⟩ (wavEncodeBytes 24000 1 2 [232, 3]) ≠
      ProcResult.ok (wavEncodeBytes 24000 1 2 [232, 3]) := by decide

/-- Claim C2 (amended): only the treble stage of main_api.py is gated on
a positive gain — a negative trebleGainDb is a no-op there; in main.py
both shelf stages run for every nonzero gain (low-pass filter then gain,
high-pass filter then gain), and in main_api.py the bass stage also runs
its 150 Hz shelf overlay for every nonzero (hence also negative)
bassGainDb. -/
theorem C2_amended (G : GainModel) (s : AudioSeg) (tq bq : ℚ)
    (ht : tq < 0) (hb : bq < 0) :
    trebleStageApi G tq s = s ∧
    bassStageMain G bq s = applyGainSeg G bq (lowPass G 150 s) ∧
    trebleStageMain G tq s = applyGainSeg G tq (highPass G 3000 s) ∧
    bassStageApi G bq s =
      overlaySeg (applyGainSeg G bq (lowPass G 150 s)) (highPass G 150 s) := by
  refine ⟨?_, ?_, ?_, ?_⟩
  · unfold trebleStageApi
    rw [if_pos ht.ne, if_neg (not_lt.2 ht.le)]
  · unfold bassStageMain
    rw [if_pos hb.ne]
  · unfold trebleStageMain
    rw [if_pos ht.ne]
  · unfold bassStageApi
    rw [if_pos hb.ne]
    split_ifs with hpos
    · exact absurd hpos (not_lt.2 hb.le)
    · rfl

/-- Witness for the amended C2 at concrete negative gains. -/
theorem C2_amended_witness :
    ((-6 : ℚ) < 0 ∧ (-5 : ℚ) < 0) ∧
    (trebleStageApi ratPrims (-6) ⟨24000, 1, 2, [1000]⟩ = ⟨24000, 1, 2, [1000]⟩ ∧
      bassStageMain ratPrims (-5) ⟨24000, 1, 2, [1000]⟩ =
        applyGainSeg ratPrims (-5) (lowPass ratPrims 150 ⟨24000, 1, 2, [1000]⟩) ∧
      trebleStageMain ratPrims (-6) ⟨24000, 1, 2, [1000]⟩ =
        applyGainSeg ratPrims (-6) (highPass ratPrims 3000 ⟨24000, 1, 2, [1000]⟩) ∧
      bassStageApi ratPrims (-5) ⟨24000, 1, 2, [1000]⟩ =
        overlaySeg (applyGainSeg ratPrims (-5) (lowPass ratPrims 150 ⟨24000, 1, 2, [1000]⟩))
          (highPass ratPrims 150 ⟨24000, 1, 2, [1000]⟩)) :=
  ⟨⟨by norm_num, by norm_num⟩,
    C2_amended ratPrims ⟨24000, 1, 2, [1000]⟩ (-6) (-5) (by norm_num) (by norm_num)⟩

/-- Claim C3 counterexample: a first chunk which has no sample_rate field
but carries rate = 22050.  Under the probing order the claim states the
derived rate would be 22050; the code only probes sample_rate, so the
container is written and decodes at the 24000 fallback. -/
theorem C3_counterexample :
    wavDecode (fallbackEncode
        [⟨none, none, [7, 8], none, some 22050, none, some 1, some 2⟩]) =
      some ⟨24000, 1, 2, bytesToSamples 2 [7, 8]⟩ ∧
    specChunkRate ⟨none, none, [7, 8], none, some 22050, none, some 1, some 2⟩ = 22050 ∧
    (24000 : ℕ) ≠ 22050 := by decide

/-- Claim C3 (amended): format metadata is derived only from the first
chunk, probing exactly the fields sample_rate, channels and sample_width
with fallbacks 24000 Hz, 1 channel and 2 bytes; the rate and sampleRate
field variants are never consulted (the fallback output depends only on
the probed fields of the first chunk and the payload bytes). -/
theorem C3_amended (c0 c1 : Chunk) (rest0 rest1 : List Chunk)
    (h1 : c0.sample_rate = c1.sample_rate) (h2 : c0.channels = c1.channels)
    (h3 : c0.sample_width = c1.sample_width)
    (h4 : ((c0 :: rest0).map payload).flatten = ((c1 :: rest1).map payload).flatten) :
    fallbackEncode (c0 :: rest0) = fallbackEncode (c1 :: rest1) ∧
    fallbackEncode (c0 :: rest0) =
      wavEncodeBytes (c0.sample_rate.getD 24000) (c0.channels.getD 1)
        (c0.sample_width.getD 2) (((c0 :: rest0).map payload).flatten) := by
  constructor
  · simp only [fallbackEncode, chunkRate, chunkChannels, chunkWidth]
    rw [h1, h2, h3, h4]
  · rfl

/-- Witness for the amended C3: two singleton chunk sequences differing
only in the unprobed rate field produce the same container. -/
theorem C3_amended_witness :
    ((⟨some [9], none, [], none, some 11025, none, none, none⟩ : Chunk).sample_rate =
        (⟨some [9], none, [], none, some 999, none, none, none⟩ : Chunk).sample_rate ∧
      (([(⟨some [9], none, [], none, some 11025, none, none, none⟩ : Chunk)]).map
          payload).flatten =
        (([(⟨some [9], none, [], none, some 999, none, none, none⟩ : Chunk)]).map
          payload).flatten) ∧
    fallbackEncode [⟨some [9], none, [], none, some 11025, none, none, none⟩] =
      fallbackEncode [⟨some [9], none, [], none, some 999, none, none, none⟩] :=
  ⟨⟨rfl, rfl⟩,
    (C3_amended ⟨some [9], none, [], none, some 11025, none, none, none⟩
      ⟨some [9], none, [], none, some 999, none, none, none⟩ [] [] rfl rfl rfl rfl).1⟩

/-- Claim C4 (code-bug evaluation): with a raising direct-container path
and an empty chunk sequence, synthesize_bytes in main_api.py fails with
its designated synthesis error (ValueError "No audio generated", the
SynthesisError of the specification), but synthesize_bytes in main.py
evaluates chunks[0] on the empty list and fails with an IndexError — an
undocumented error kind. -/
theorem C4_empty_chunks :
    mainSynthesize .raises [] = .indexError ∧
    apiSynthesize .raises [] = .synthesisError := ⟨rfl, rfl⟩

/-- Claim C6: in direct-container mode a result is accepted exactly when
its total byte length strictly exceeds the 44-byte container header, and
every failure of the direct attempt — an exception or output not longer
than the header — is swallowed and control falls through to raw-chunk
mode without surfacing an error. -/
theorem C6_direct_acceptance (b : List ℕ) (cs : List Chunk) :
    (44 < b.length →
      apiSynthesize (.ok b) cs = .ok b ∧ mainSynthesize (.ok b) cs = .ok b) ∧
    (b.length ≤ 44 →
      apiSynthesize (.ok b) cs = apiFallback cs ∧
      mainSynthesize (.ok b) cs = mainFallback cs) ∧
    apiSynthesize .raises cs = apiFallback cs ∧
    mainSynthesize .raises cs = mainFallback cs := by
  refine ⟨fun h => ⟨?_, ?_⟩, fun h => ⟨?_, ?_⟩, rfl, rfl⟩
  · simp only [apiSynthesize]
    rw [if_pos h]
  · simp only [mainSynthesize]
    rw [if_pos h]
  · simp only [apiSynthesize]
    rw [if_neg (by omega)]
  · simp only [mainSynthesize]
    rw [if_neg (by omega)]

/-- Witness for C6 at a 45-byte accepted result and a 44-byte rejected
one. -/
theorem C6_direct_acceptance_witness :
    (44 < (List.replicate 45 (0 : ℕ)).length ∧
      apiSynthesize (.ok (List.replicate 45 (0 : ℕ))) [] = .ok (List.replicate 45 (0 : ℕ)) ∧
      mainSynthesize (.ok (List.replicate 45 (0 : ℕ))) [] = .ok (List.replicate 45 (0 : ℕ))) ∧
    ((List.replicate 44 (0 : ℕ)).length ≤ 44 ∧
      apiSynthesize (.ok (List.replicate 44 (0 : ℕ))) [] = apiFallback [] ∧
      mainSynthesize (.ok (List.replicate 44 (0 : ℕ))) [] = mainFallback []) :=
  ⟨⟨by decide, (C6_direct_acceptance (List.replicate 45 0) []).1 (by decide)⟩,
   ⟨by decide, (C6_direct_acceptance (List.replicate 44 0) []).2.1 (by decide)⟩⟩

theorem durationQ_spawn_setFR (s : AudioSeg) (nr : ℕ) (hnr : 0 < nr)
    (hc : 0 < s.channels) :
    ((frameCount s - 1 : ℕ) : ℚ) / (nr : ℚ) ≤ durationQ (setFrameRate24 (spawnRate nr s)) ∧
    durationQ (setFrameRate24 (spawnRate nr s)) ≤
      ((frameCount s - 1 : ℕ) : ℚ) / (nr : ℚ) + 1 / 24000 := by
  have h := durationQ_setFrameRate24 (spawnRate nr s) hnr hc
  have he1 : frameCount (spawnRate nr s) = frameCount s := rfl
  have he2 : (spawnRate nr s).rate = nr := rfl
  rw [he1, he2] at h
  exact h

/-- Claim C7: the speed stage reinterprets the raw samples at
rate*(speedPercent/100) and resamples the declared rate to 24000 Hz.  At
speedPercent = 200 the output duration is half the input duration within
resampling rounding tolerance: at most one reinterpreted-frame period
(1/(2 rate)) below half and at most one 24000 Hz output frame (1/24000)
above it.  At speedPercent = 50 the output duration is double the input
duration within the analogous tolerance: at most 2/rate below double,
and above it by no more than the halved-rate truncation allows plus one
output frame. -/
theorem C7_speed_duration (s : AudioSeg) (hr : 2 ≤ s.rate) (hc : 0 < s.channels) :
    durationQ s / 2 - 1 / (2 * (s.rate : ℚ)) ≤ durationQ (speedStage 200 s) ∧
    durationQ (speedStage 200 s) ≤ durationQ s / 2 + 1 / 24000 ∧
    2 * durationQ s - 2 / (s.rate : ℚ) ≤ durationQ (speedStage 50 s) ∧
    durationQ (speedStage 50 s) ≤
      2 * (frameCount s : ℚ) / ((s.rate : ℚ) - 1) + 1 / 24000 := by
  have hr0 : 0 < s.rate := by omega
  have hrQ : (0 : ℚ) < (s.rate : ℚ) := by exact_mod_cast hr0
  have hfc0 : (0 : ℚ) ≤ (frameCount s : ℚ) := by positivity
  have h200 : speedStage 200 s = setFrameRate24 (spawnRate (2 * s.rate) s) := by
    unfold speedStage
    rw [if_pos (by norm_num), speed200_rate]
  have h50 : speedStage 50 s = setFrameRate24 (spawnRate (s.rate / 2) s) := by
    unfold speedStage
    rw [if_pos (by norm_num), speed50_rate]
  have hA := durationQ_spawn_setFR s (2 * s.rate) (by omega) hc
  have hb2 : 0 < s.rate / 2 := by omega
  have hB := durationQ_spawn_setFR s (s.rate / 2) (by omega) hc
  have hbQ : (0 : ℚ) < ((s.rate / 2 : ℕ) : ℚ) := by exact_mod_cast hb2
  have h2rQ : ((2 * s.rate : ℕ) : ℚ) = 2 * (s.rate : ℚ) := by push_cast; ring
  rw [h2rQ] at hA
  have h2r : (0 : ℚ) < 2 * (s.rate : ℚ) := by linarith
  set m := frameCount s - 1 with hm
  have hmlow : (frameCount s : ℚ) - 1 ≤ (m : ℚ) := by
    have hx : frameCount s ≤ m + 1 := by omega
    have hx2 : (frameCount s : ℚ) ≤ (m : ℚ) + 1 := by exact_mod_cast hx
    linarith
  have hmhigh : (m : ℚ) ≤ (frameCount s : ℚ) := by
    exact_mod_cast (by omega : m ≤ frameCount s)
  have hm0 : (0 : ℚ) ≤ (m : ℚ) := by positivity
  have hdq : durationQ s = (frameCount s : ℚ) / (s.rate : ℚ) := rfl
  have hld : durationQ s / 2 = (frameCount s : ℚ) / (2 * (s.rate : ℚ)) := by
    rw [hdq, div_div, mul_comm]
  refine ⟨?_, ?_, ?_, ?_⟩
  · rw [h200]
    refine le_trans ?_ hA.1
    rw [hld, div_sub_div_same, div_le_div_iff h2r h2r]
    exact mul_le_mul_of_nonneg_right (by linarith) h2r.le
  · rw [h200]
    refine le_trans hA.2 ?_
    have hstep : (m : ℚ) / (2 * (s.rate : ℚ)) ≤
        (frameCount s : ℚ) / (2 * (s.rate : ℚ)) := by
      rw [div_le_div_iff h2r h2r]
      exact mul_le_mul_of_nonneg_right hmhigh h2r.le
    rw [hld]
    linarith
  · rw [h50]
    refine le_trans ?_ hB.1
    have hchain1 : 2 * ((frameCount s : ℚ) / (s.rate : ℚ)) - 2 / (s.rate : ℚ) ≤
        2 * (m : ℚ) / (s.rate : ℚ) := by
      rw [show 2 * ((frameCount s : ℚ) / (s.rate : ℚ)) =
          2 * (frameCount s : ℚ) / (s.rate : ℚ) by ring,
        div_sub_div_same, div_le_div_iff hrQ hrQ]
      exact mul_le_mul_of_nonneg_right (by linarith) hrQ.le
    have h2b : 2 * ((s.rate / 2 : ℕ) : ℚ) ≤ (s.rate : ℚ) := by
      have hx : 2 * (s.rate / 2) ≤ s.rate := by omega
      exact_mod_cast hx
    have hchain2 : 2 * (m : ℚ) / (s.rate : ℚ) ≤ (m : ℚ) / ((s.rate / 2 : ℕ) : ℚ) := by
      rw [div_le_div_iff hrQ hbQ]
      nlinarith [mul_le_mul_of_nonneg_left h2b hm0]
    rw [hdq]
    linarith
  · rw [h50]
    refine le_trans hB.2 ?_
    have hr1 : (0 : ℚ) < (s.rate : ℚ) - 1 := by
      have hx : (1 : ℚ) < (s.rate : ℚ) := by exact_mod_cast (by omega : 1 < s.rate)
      linarith
    have hbge : (s.rate : ℚ) - 1 ≤ 2 * ((s.rate / 2 : ℕ) : ℚ) := by
      have hx : s.rate - 1 ≤ 2 * (s.rate / 2) := by omega
      have hx2 : ((s.rate - 1 : ℕ) : ℚ) ≤ ((2 * (s.rate / 2) : ℕ) : ℚ) := by
        exact_mod_cast hx
      have hx3 : ((s.rate - 1 : ℕ) : ℚ) = (s.rate : ℚ) - 1 := by
        rw [Nat.cast_sub (by omega : 1 ≤ s.rate)]
        norm_num
      rw [hx3] at hx2
      push_cast at hx2
      linarith
    have hstep : (m : ℚ) / ((s.rate / 2 : ℕ) : ℚ) ≤
        2 * (frameCount s : ℚ) / ((s.rate : ℚ) - 1) := by
      rw [div_le_div_iff hbQ hr1]
      nlinarith [mul_le_mul_of_nonneg_left hbge hm0,
        mul_le_mul_of_nonneg_right hmhigh hbQ.le]
    linarith

/-- Witness for C7 at a concrete four-frame 24000 Hz waveform. -/
theorem C7_speed_duration_witness :
    (2 ≤ (⟨24000, 1, 2, [0, 0, 0, 0]⟩ : AudioSeg).rate ∧
      0 < (⟨24000, 1, 2, [0, 0, 0, 0]⟩ : AudioSeg).channels) ∧
    (durationQ ⟨24000, 1, 2, [0, 0, 0, 0]⟩ / 2 -
        1 / (2 * (((⟨24000, 1, 2, [0, 0, 0, 0]⟩ : AudioSeg).rate : ℚ))) ≤
        durationQ (speedStage 200 ⟨24000, 1, 2, [0, 0, 0, 0]⟩) ∧
      durationQ (speedStage 200 ⟨24000, 1, 2, [0, 0, 0, 0]⟩) ≤
        durationQ ⟨24000, 1, 2, [0, 0, 0, 0]⟩ / 2 + 1 / 24000 ∧
      2 * durationQ ⟨24000, 1, 2, [0, 0, 0, 0]⟩ -
        2 / (((⟨24000, 1, 2, [0, 0, 0, 0]⟩ : AudioSeg).rate : ℚ)) ≤
        durationQ (speedStage 50 ⟨24000, 1, 2, [0, 0, 0, 0]⟩) ∧
      durationQ (speedStage 50 ⟨24000, 1, 2, [0, 0, 0, 0]⟩) ≤
        2 * (frameCount ⟨24000, 1, 2, [0, 0, 0, 0]⟩ : ℚ) /
          (((⟨24000, 1, 2, [0, 0, 0, 0]⟩ : AudioSeg).rate : ℚ) - 1) + 1 / 24000) :=
  ⟨⟨by decide, by decide⟩,
    C7_speed_duration ⟨24000, 1, 2, [0, 0, 0, 0]⟩ (by decide) (by decide)⟩

unseal Rat.add Rat.mul Rat.sub Rat.inv in
/-- Claim C8 counterexample: on a silent container with normalize on and
every other parameter at no-op, process_audio returns the input unchanged
and the decoded output waveform has peak 0, which is not within a small
tolerance of the maximum representable amplitude (2^15 for 2-byte
samples): the no-clipping half of the claim holds but the
reach-the-maximum half fails on silence. -/
theorem C8_counterexample :
    processMain ratPrims ⟨0, 100, 0, 0, 0, true⟩ (wavEncodeBytes 24000 1 2 [0, 0]) =
      ProcResult.ok (wavEncodeBytes 24000 1 2 [0, 0]) ∧
    wavDecode (wavEncodeBytes 24000 1 2 [0, 0]) = some ⟨24000, 1, 2, [0]⟩ ∧
    peakAbs [(0 : ℤ)] = 0 ∧ (0 : ℚ) < (maxAmp 2 : ℚ) * (49 / 50) - 1 := by
  refine ⟨by decide, by decide, by decide, by norm_num [maxAmp]⟩

/-- Claim C8 (amended): when normalize is set, normalization is applied
as the last transform stage (after pitch, speed, bass, treble and volume
gain) in both variants, and for every waveform reaching the stage with a
nonzero peak the output peak is within a small tolerance of the maximum
representable amplitude (at least 49/50 of it minus one quantisation
step) and never exceeds it; a silent waveform is returned unchanged. -/
theorem C8_amended (G : GainModel) (p : Params) (s : AudioSeg)
    (hn : p.normalize = true) :
    applyEffectsMain G p s = normalizeSeg G (applyEffectsMain G p.withoutNorm s) ∧
    applyEffectsApi G p s = normalizeSeg G (applyEffectsApi G p.withoutNorm s) ∧
    (∀ t : AudioSeg, 0 < t.width → peakAbs t.samples ≠ 0 →
      (maxAmp t.width : ℚ) * (49 / 50) - 1 ≤ (peakAbs (normalizeSeg G t).samples : ℚ) ∧
      (peakAbs (normalizeSeg G t).samples : ℚ) ≤ (maxAmp t.width : ℚ)) := by
  refine ⟨?_, ?_, fun t hw hp => normalizeSeg_peak G t hw hp⟩
  · unfold applyEffectsMain normStage Params.withoutNorm
    simp [hn]
  · unfold applyEffectsApi normStage Params.withoutNorm
    simp [hn]

/-- Witness for the amended C8 at a one-sample waveform of peak 1000. -/
theorem C8_amended_witness :
    ((⟨0, 100, 0, 0, 0, true⟩ : Params).normalize = true ∧
      0 < (⟨24000, 1, 2, [1000]⟩ : AudioSeg).width ∧
      peakAbs (⟨24000, 1, 2, [1000]⟩ : AudioSeg).samples ≠ 0) ∧
    ((maxAmp (⟨24000, 1, 2, [1000]⟩ : AudioSeg).width : ℚ) * (49 / 50) - 1 ≤
        (peakAbs (normalizeSeg ratPrims ⟨24000, 1, 2, [1000]⟩).samples : ℚ) ∧
      (peakAbs (normalizeSeg ratPrims ⟨24000, 1, 2, [1000]⟩).samples : ℚ) ≤
        (maxAmp (⟨24000, 1, 2, [1000]⟩ : AudioSeg).width : ℚ)) :=
  ⟨⟨rfl, by decide, by decide⟩,
    (C8_amended ratPrims ⟨0, 100, 0, 0, 0, true⟩ ⟨24000, 1, 2, [1000]⟩ rfl).2.2
      ⟨24000, 1, 2, [1000]⟩ (by decide) (by decide)⟩

/-- Claim C9 counterexample: an engine that raises on the direct path and
yields one chunk whose payload is the empty byte string is a working
engine in the sense of the claim (it produces at least one chunk), yet
synthesis succeeds with a container of exactly 44 bytes — not strictly
greater than the header size. -/
theorem C9_counterexample :
    apiSynthesize .raises [⟨some [], none, [], none, none, none, none, none⟩] =
      .ok (fallbackEncode [⟨some [], none, [], none, none, none, none, none⟩]) ∧
    (fallbackEncode [⟨some [], none, [], none, none, none, none, none⟩]).length = 44 := by
  exact ⟨by decide, by decide⟩

theorem fallbackEncode_length (first : Chunk) (rest : List Chunk) :
    (fallbackEncode (first :: rest)).length =
      44 + (((first :: rest).map payload).flatten).length := by
  simp only [fallbackEncode]
  rw [wavEncodeBytes_length]

theorem apiFallback_ok (cs : List Chunk) (out : List ℕ) (h : apiFallback cs = .ok out) :
    44 ≤ out.length ∧ ((cs.map payload).flatten ≠ [] → 44 < out.length) := by
  cases cs with
  | nil => simp [apiFallback] at h
  | cons first rest =>
    simp only [apiFallback] at h
    have hout := SynthResult.ok.inj h
    subst hout
    rw [fallbackEncode_length]
    refine ⟨by omega, fun hne => ?_⟩
    have hpos : 0 < (((first :: rest).map payload).flatten).length := List.length_pos.2 hne
    omega

theorem mainFallback_ok (cs : List Chunk) (out : List ℕ) (h : mainFallback cs = .ok out) :
    44 ≤ out.length ∧ ((cs.map payload).flatten ≠ [] → 44 < out.length) := by
  cases cs with
  | nil => simp [mainFallback] at h
  | cons first rest =>
    simp only [mainFallback] at h
    have hout := SynthResult.ok.inj h
    subst hout
    rw [fallbackEncode_length]
    refine ⟨by omega, fun hne => ?_⟩
    have hpos : 0 < (((first :: rest).map payload).flatten).length := List.length_pos.2 hne
    omega

/-- Claim C9 (amended): every successful synthesize_bytes run returns at
least the 44-byte header, and strictly more than 44 bytes whenever the
concatenated chunk payload is nonempty (the direct path only accepts
results longer than 44 bytes); output of exactly 44 bytes arises only
from the raw-chunk path with an empty total payload. -/
theorem C9_amended (d : DirectResult) (cs : List Chunk) (out : List ℕ)
    (h : apiSynthesize d cs = .ok out ∨ mainSynthesize d cs = .ok out) :
    44 ≤ out.length ∧ ((cs.map payload).flatten ≠ [] → 44 < out.length) := by
  rcases h with h | h
  · cases d with
    | ok b =>
      simp only [apiSynthesize] at h
      by_cases hlen : 44 < b.length
      · rw [if_pos hlen] at h
        have hout := SynthResult.ok.inj h
        subst hout
        exact ⟨by omega, fun _ => hlen⟩
      · rw [if_neg hlen] at h
        exact apiFallback_ok cs out h
    | raises =>
      simp only [apiSynthesize] at h
      exact apiFallback_ok cs out h
  · cases d with
    | ok b =>
      simp only [mainSynthesize] at h
      by_cases hlen : 44 < b.length
      · rw [if_pos hlen] at h
        have hout := SynthResult.ok.inj h
        subst hout
        exact ⟨by omega, fun _ => hlen⟩
      · rw [if_neg hlen] at h
        exact mainFallback_ok cs out h
    | raises =>
      simp only [mainSynthesize] at h
      exact mainFallback_ok cs out h

/-- Witness for the amended C9 at a one-chunk engine with a two-byte
payload. -/
theorem C9_amended_witness :
    (apiSynthesize DirectResult.raises
        [⟨some [1, 2], none, [], none, none, none, some 1, some 2⟩] =
      .ok (fallbackEncode [⟨some [1, 2], none, [], none, none, none, some 1, some 2⟩])) ∧
    (44 ≤ (fallbackEncode [⟨some [1, 2], none, [], none, none, none, some 1, some 2⟩]).length ∧
      (([(⟨some [1, 2], none, [], none, none, none, some 1, some 2⟩ : Chunk)].map
          payload).flatten ≠ [] →
        44 < (fallbackEncode
          [⟨some [1, 2], none, [], none, none, none, some 1, some 2⟩]).length)) :=
  ⟨by decide, C9_amended DirectResult.raises _ _ (Or.inl (by decide))⟩

unseal Rat.add Rat.mul Rat.sub Rat.inv in
/-- Claim C10 counterexample: with trebleGainDb = -6 and every other
parameter at no-op, process_audio in main.py applies the 3000 Hz shelf
and the negative gain while process_audio_effects in main_api.py leaves
the audio untouched, so the two variants return different bytes for the
same input and parameters. -/
theorem C10_counterexample :
    processMain ratPrims ⟨0, 100, 0, -6, 0, false⟩ (wavEncodeBytes 24000 1 2 [232, 3]) ≠
      processApi ratPrims ⟨0, 100, 0, -6, 0, false⟩ (wavEncodeBytes 24000 1 2 [232, 3]) := by
  decide

/-- Claim C10 (amended): the two effects-processor variants agree on
every input container and every parameter setting whose bass and treble
gains are both zero — the pitch, speed, volume-gain and normalization
stages and the container round-trip are the same code in both files; they
diverge only when a shelf stage runs. -/
theorem C10_amended (G : GainModel) (p : Params) (b : List ℕ)
    (hb : p.bass = 0) (ht : p.treble = 0) :
    processMain G p b = processApi G p b := by
  unfold processMain processApi
  cases hD : wavDecode b with
  | none => rfl
  | some s =>
    have hbass : ∀ u : AudioSeg, bassStageMain G p.bass u = u := by
      intro u
      unfold bassStageMain
      rw [hb]
      simp
    have hbassA : ∀ u : AudioSeg, bassStageApi G p.bass u = u := by
      intro u
      unfold bassStageApi
      rw [hb]
      simp
    have htre : ∀ u : AudioSeg, trebleStageMain G p.treble u = u := by
      intro u
      unfold trebleStageMain
      rw [ht]
      simp
    have htreA : ∀ u : AudioSeg, trebleStageApi G p.treble u = u := by
      intro u
      unfold trebleStageApi
      rw [ht]
      simp
    unfold applyEffectsMain applyEffectsApi
    dsimp only
    rw [hbass, hbassA, htre, htreA]

/-- Witness for the amended C10 at nonzero pitch, speed and gain. -/
theorem C10_amended_witness :
    ((⟨2, 150, 0, 0, 3, true⟩ : Params).bass = 0 ∧
      (⟨2, 150, 0, 0, 3, true⟩ : Params).treble = 0) ∧
    processMain ratPrims ⟨2, 150, 0, 0, 3, true⟩ (wavEncodeBytes 24000 1 2 [232, 3]) =
      processApi ratPrims ⟨2, 150, 0, 0, 3, true⟩ (wavEncodeBytes 24000 1 2 [232, 3]) :=
  ⟨⟨rfl, rfl⟩, C10_amended ratPrims ⟨2, 150, 0, 0, 3, true⟩ _ rfl rfl⟩

end TestPiper
